import Mathlib

/-!
Verification of the `merked` chunking-and-commitment pipeline: the shard
splitter (`lib/split.js`), the Merkle tree builder (`lib/tree.js`) and the
commitment orchestrator (`lib/dag.js`), shallowly embedded over `List Nat`
buffers (one `Nat` per byte).  JavaScript numbers that may carry fractional
values (the `split` size options) are embedded as `ℚ`; values that may be
either a number or a string (the shorthand size unit) are embedded as `JSVal`.
External collaborators (node's `crypto` hashes and random source) are passed
in as explicit function parameters.
-/

/-- A byte buffer: one `Nat` per byte. -/
abbrev Buf := List Nat

/-- A pluggable hash function, `bytes → digest` (spec §4.3). -/
abbrev Hasher := Buf → Buf

/-! ## Hex encoding (`Buffer.prototype.toString('hex')`) -/

/-- Lowercase hex digit for `n < 16`. -/
def hexChar (n : Nat) : Char :=
  if n < 10 then Char.ofNat (48 + n) else Char.ofNat (87 + n)

/-- Two lowercase hex digits for one byte. -/
def byteToHex (b : Nat) : String :=
  String.mk [hexChar (b / 16 % 16), hexChar (b % 16)]

/-- `buffer.toString('hex')`: lowercase hex, two digits per byte. -/
def bufToHex (b : Buf) : String :=
  String.join (b.map byteToHex)

/-! ## JavaScript number / string values

`split.js` accepts its size options either as numbers or as shorthand strings
such as `"4M"`; `JSVal` embeds that union. -/

/-- A JavaScript value that is either a number or a string. -/
inductive JSVal where
  | num (q : ℚ)
  | str (s : String)
deriving DecidableEq

/-- Digits-to-number accumulator (for embedding JS string-to-number coercion). -/
def natOfDigits (cs : List Char) : Nat :=
  cs.foldl (fun acc c => 10 * acc + (c.toNat - 48)) 0

/-- JS `Number(s)` coercion, for the literal forms that can reach the size
checks of `split.js`: the empty string (which coerces to 0), decimal integer
and decimal fraction literals, optionally negated.  Exponent, hexadecimal,
`+`-signed and whitespace-padded literals — which JS also coerces, with
IEEE-754 rounding that a rational embedding cannot reproduce exactly — are
not modeled and map to `none` here, so theorems evaluate this function only
where the model agrees with JS: on plain decimal literals, on
shorthand-shaped strings such as `"4M"` (genuinely NaN), and on purely
alphabetic strings (never coerced by JS to a usable number). -/
def strToNumber (s : String) : Option ℚ :=
  if s = "" then some 0
  else
    let cs := s.toList
    let neg := cs.headD ' ' = '-'
    let body := if neg then cs.tail else cs
    let ds := body.takeWhile Char.isDigit
    let rest := body.drop ds.length
    let val : Option ℚ :=
      match rest with
      | [] => if ds.isEmpty then none else some ((natOfDigits ds : ℚ))
      | '.' :: fs =>
        if fs.all Char.isDigit && (!ds.isEmpty || !fs.isEmpty) then
          some ((natOfDigits ds : ℚ) + (natOfDigits fs : ℚ) / (10 : ℚ) ^ fs.length)
        else none
      | _ => none
    val.map (fun q => if neg then -q else q)

/-- JS numeric coercion of a `JSVal` (`none` = NaN). -/
def jsToNumber : JSVal → Option ℚ
  | .num q => some q
  | .str s => strToNumber s

/-- `Number.MAX_SAFE_INTEGER` as a rational. -/
def ratMaxSafe : ℚ := 9007199254740991

/-- `isSafe` from `split.js`: `Number.MIN_SAFE_INTEGER <= q <= Number.MAX_SAFE_INTEGER`. -/
def isSafeQ (q : ℚ) : Prop := -ratMaxSafe ≤ q ∧ q ≤ ratMaxSafe

instance (q : ℚ) : Decidable (isSafeQ q) := by unfold isSafeQ; infer_instance

/-- `Math.floor` for the nonnegative sizes that reach it in `checkOptions`
(every call site has already checked `1 ≤ q`). -/
def ratFloorNat (q : ℚ) : Nat := q.num.toNat / q.den

/-! ## The shard splitter (`split.js`) -/

/-- `splitByBytes` from `split.js`: take slices of `size` bytes; a final
slice shorter than `size` is emitted as-is; an empty buffer yields no slices.
`checkOptions` only ever produces `size ≥ 1`; on `size = 0` the JS loop would
not terminate (it would push empty slices forever), so that unreachable case
is mapped to `[]` here. -/
def splitByBytes (b : Buf) (size : Nat) : List Buf :=
  if hb : b.isEmpty then []
  else if hs : size = 0 then []
  else b.take size :: splitByBytes (b.drop size) size
termination_by b.length
decreasing_by
  have hb2 : b ≠ [] := by
    intro h
    rw [h] at hb
    simp at hb
  have hl : 0 < b.length := List.length_pos.mpr hb2
  have : (b.drop size).length = b.length - size := List.length_drop size b
  omega

/-- Worker loop of `splitByLines` from `split.js`: scan for newline bytes
(`10`), emitting a slice after every `lines` newlines; once the index passes
the end of the buffer, any unterminated trailing data is emitted as a final
slice.  `index` advances by one every iteration and the loop exits no later
than `index = length + 1`, which bounds the recursion. -/
def splitByLinesGo (buffer : Buf) (lines : Nat) (start index lineCount : Nat) :
    List Buf :=
  if start = buffer.length then []
  else if buffer.length < index then [buffer.drop start]
  else if buffer[index]? = some 10 then
    if lineCount = lines then
      ((buffer.drop start).take (index + 1 - start)) ::
        splitByLinesGo buffer lines (index + 1) (index + 1) 1
    else splitByLinesGo buffer lines start (index + 1) (lineCount + 1)
  else splitByLinesGo buffer lines start (index + 1) lineCount
termination_by buffer.length + 1 - index

/-- `splitByLines` from `split.js`: groups of `lines` newline-terminated
lines per slice, trailing unterminated data as a final slice. -/
def splitByLines (buffer : Buf) (lines : Nat) : List Buf :=
  splitByLinesGo buffer lines 0 0 1

/-- The raw splitting options accepted by `split`/`splitSync`; `none` stands
for a JS property that is absent, `undefined` or `null` (the three cases
`isDefined` treats alike).  The file-emitting options (`prefix` and the
suffix controls) are not exercised by the commitment pipeline and are not
embedded; without them `createFilenames` cannot throw and `splitSync` writes
no files. -/
structure SplitOptions where
  lines : Option JSVal
  bytes : Option JSVal
  line_bytes : Option JSVal
deriving DecidableEq

/-- The options record produced by `checkOptions`: validated, floored sizes. -/
structure ParsedOptions where
  lines : Option Nat
  bytes : Option Nat
  line_bytes : Option Nat
deriving DecidableEq

/-- The `lines` validation in `checkOptions`: NaN, unsafe, or `< 1` values
are rejected, then the value is floored. -/
def parseLinesVal (v : JSVal) : Except String Nat :=
  match jsToNumber v with
  | none => .error "Invalid number of lines"
  | some q =>
    if isSafeQ q ∧ 1 ≤ q then .ok (ratFloorNat q) else .error "Invalid number of lines"

/-- The `bytes`/`line_bytes` validation in `checkOptions`: a NaN value is
retried against the shorthand regex `^(\d+)(KB|MB|K|M)$` (case-insensitive);
a numeric value is rejected when unsafe or `< 1`, and floored otherwise. -/
def parseSizeVal (v : JSVal) : Except String Nat :=
  match jsToNumber v with
  | some q =>
    if isSafeQ q ∧ 1 ≤ q then .ok (ratFloorNat q) else .error "Invalid number of bytes"
  | none =>
    match v with
    | .num _ => .error "Invalid number of bytes"
    | .str s =>
      match parseShorthand s with
      | none => .error "Invalid number of bytes"
      | some (d, u) =>
        if isSafeQ ((d * u : Nat) : ℚ) then .ok (d * u)
        else .error "Invalid number of bytes"
where
  /-- The shorthand regex `^(\d+)(KB|MB|K|M)$/i` of `checkOptions`, returning
  the digit group's value and the unit multiplier. -/
  parseShorthand (s : String) : Option (Nat × Nat) :=
    let cs := s.toList
    let ds := cs.takeWhile Char.isDigit
    let unit := (cs.drop ds.length).map Char.toLower
    if ds.isEmpty then none
    else
      match unit with
      | ['k'] => some (natOfDigits ds, 1024)
      | ['m'] => some (natOfDigits ds, 1048576)
      | ['k', 'b'] => some (natOfDigits ds, 1000)
      | ['m', 'b'] => some (natOfDigits ds, 1000000)
      | _ => none

/-- Validate one optional size field (absent fields are passed through). -/
def parseOpt (p : JSVal → Except String Nat) : Option JSVal → Except String (Option Nat)
  | none => .ok none
  | some v =>
    match p v with
    | .error e => .error e
    | .ok n => .ok (some n)

/-- `checkOptions` from `split.js`, restricted to the splitting-mode options:
rejects conflicting modes, a missing mode, and invalid sizes; floors valid
numeric sizes and expands shorthand strings. -/
def checkOptions (o : SplitOptions) : Except String ParsedOptions :=
  let byLines := o.lines.isSome
  let byBytes := o.bytes.isSome
  let byLineBytes := o.line_bytes.isSome
  if (byLines && byBytes) || (byBytes && byLineBytes) || (byLines && byLineBytes) then
    .error "Cannot split in more than one way"
  else if !byLines && !byBytes && !byLineBytes then
    .error "Splitting way is not specified"
  else
    match parseOpt parseLinesVal o.lines with
    | .error e => .error e
    | .ok ln =>
      match parseOpt parseSizeVal o.bytes with
      | .error e => .error e
      | .ok bn =>
        match parseOpt parseSizeVal o.line_bytes with
        | .error e => .error e
        | .ok lbn => .ok ⟨ln, bn, lbn⟩

/-- `_split` from `split.js`: dispatch on the (already validated) mode.
`checkOptions` guarantees exactly one mode is set; the all-absent fallback is
unreachable. -/
def splitDispatch (buffer : Buf) (p : ParsedOptions) : List Buf :=
  match p.lines with
  | some k => splitByLines buffer k
  | none =>
    match p.bytes with
    | some n => splitByBytes buffer n
    | none =>
      match p.line_bytes with
      | some n => ((splitByLines buffer 1).map (fun line => splitByBytes line n)).flatten
      | none => []

/-- `splitSync` from `split.js` without the file-emitting options: validate,
then split.  (The unconditional `createFilenames` call in the source cannot
throw when no explicit `suffix_length` is supplied, and no files are written
when `prefix` is absent.) -/
def splitSync (buffer : Buf) (o : SplitOptions) : Except String (List Buf) :=
  match checkOptions o with
  | .error e => .error e
  | .ok p => .ok (splitDispatch buffer p)

/-! ## The Merkle tree builder (`tree.js`) -/

/-- `_getNodes` from `tree.js`: hash adjacent pairs `(e[2k], e[2k+1])` in
order (left child first, concatenation); when the row has odd length the
final unpaired element is carried upward unchanged. -/
def getNodes (h : Hasher) : List Buf → List Buf
  | [] => []
  | [x] => [x]
  | x :: y :: rest => h (x ++ y) :: getNodes h rest

/-- The `while (Math.pow(2, pow) < leaves.length) pow++` loop of `depth()`. -/
def depthFrom (len pow : Nat) : Nat :=
  if h : 2 ^ pow < len then depthFrom len (pow + 1) else pow
termination_by len - 2 ^ pow
decreasing_by
  have h2 : 2 ^ pow < 2 ^ (pow + 1) :=
    Nat.pow_lt_pow_right (by omega) (Nat.lt_succ_self pow)
  omega

/-- `depth()` from `tree.js`: the least `pow` with `2 ^ pow ≥ leafCount`. -/
def treeDepth (len : Nat) : Nat := depthFrom len 0

/-- `_compute` from `tree.js`: `rows[depth]` is the leaf row, and each
`rows[j] = _getNodes(rows[j+1])` for `j = depth - 1` down to `0`.  Built here
bottom-up by recursion on the remaining depth; the root row ends up first. -/
def buildRows (h : Hasher) : Nat → List Buf → List (List Buf)
  | 0, bottom => [bottom]
  | d + 1, bottom => buildRows h d (getNodes h bottom) ++ [bottom]

/-- The state a successfully constructed `MerkleTree` holds (`_leaves` and
`_rows`; `_depth` and `_count` are derived and unused by the claims). -/
structure MerkleTreeS where
  leaves : List Buf
  rows : List (List Buf)
deriving DecidableEq

/-- Build the tree state from leaves with an (already callable) hasher. -/
def mkMerkleTreeOk (h : Hasher) (leaves : List Buf) : MerkleTreeS :=
  { leaves := leaves, rows := buildRows h (treeDepth leaves.length) leaves }

/-- The `hasher` constructor argument of `MerkleTree`.  A falsy value
(`undefined`, `null`, ...) falls back to `DEFAULT_HASH_FUNC`; a truthy
non-function survives `hasher || DEFAULT` and then fails the
`typeof this._hasher === 'function'` assertion. -/
inductive HasherArg where
  | undef
  | func (f : Hasher)
  | nonFunc

/-- The `MerkleTree` constructor.  `dflt` is `MerkleTree.DEFAULT_HASH_FUNC`
(SHA-256 from node's `crypto`, external to this repository, passed in as an
abstract pure function).  The constructor asserts only that `leaves` is an
array (always true of a `List`) and that the resolved hasher is callable;
it performs no emptiness or digest-length checks. -/
def mkMerkleTree (dflt : Hasher) (leaves : List Buf) (arg : HasherArg) :
    Except String MerkleTreeS :=
  match arg with
  | .nonFunc => .error "Invalid hash function supplied"
  | .func f => .ok (mkMerkleTreeOk f leaves)
  | .undef => .ok (mkMerkleTreeOk dflt leaves)

/-- `root()` from `tree.js`: `this._rows[0][0]`; `none` embeds the
`undefined` produced when the root row is empty. -/
def treeRoot (t : MerkleTreeS) : Option Buf :=
  (t.rows[0]?).bind (fun row => row[0]?)

/-! ## The commitment orchestrator (`dag.js`) -/

/-- `Buffer.prototype.fill(pattern, start)`: bytes before `start` are kept,
and the region from `start` to the end is filled with the pattern repeated
cyclically.  (A numeric fill value `v` is the pattern `[v]`; the empty
pattern never occurs in this pipeline, and is mapped to zeros here.) -/
def cycleTo (p : Buf) (n : Nat) : Buf :=
  (List.range n).map (fun i => p.getD (i % p.length) 0)

/-- `buf.fill(pattern, start)` on a buffer embedded as a list. -/
def jsFill (buf : Buf) (pattern : Buf) (start : Nat) : Buf :=
  buf.take start ++ cycleTo pattern (buf.length - start)

/-- `DAG.randomFill` with the random source injected: `buf.fill` returns the
buffer, so `offset += buf.fill(...)` sets `offset` to NaN and the `while`
loop body runs exactly once, filling the whole buffer from offset 0 with the
65536-byte random chunk repeated cyclically. -/
def dagRandomFill (src : Nat → Buf) (numBytes : Nat) : Buf :=
  jsFill (List.replicate numBytes 0) (src 65536) 0

/-- The per-shard padding step inside `DAG.fromBuffer`'s `.map` callback:
`bufN = Buffer.alloc(n)` (zeros), `bufN.fill(s)`, then either
`bufN.fill(DAG.randomFill(n - s.length), s.length)` when random fill is
requested and there is room, or `bufN.fill(0, s.length)` otherwise. -/
def padShard (src : Nat → Buf) (s : Buf) (n : Nat) (randomFill : Bool) : Buf :=
  let bufN := jsFill (List.replicate n 0) s 0
  if randomFill ∧ s.length < n then
    jsFill bufN (dagRandomFill src (n - s.length)) s.length
  else
    jsFill bufN [0] s.length

/-- `Buffer.alloc(size)`: requires a number; a string throws
`ERR_INVALID_ARG_TYPE`, a negative or non-integer number also throws.  (The
2^32 - 1 byte `buffer.constants.MAX_LENGTH` cap is not embedded; no claim
reaches it.) -/
def bufferAlloc : JSVal → Except String Nat
  | .num q => if q.den = 1 ∧ 0 ≤ q.num then .ok q.num.toNat else .error "The argument size is invalid"
  | .str _ => .error "The argument size must be of type number"

/-- The byte-length fold in `DAG.DEFAULT_OPTS`. -/
def sumLens (shards : List Buf) : Nat :=
  (shards.map List.length).sum

/-- The `DAG` constructor: hash every shard into a leaf with the supplied
hash function (falling back to `DEFAULT_HASH_FUNC`, the abstract `dflt`),
build the Merkle tree, pair leaves with shards into `entries` (the second
`entries` loop in the source iterates to `this.merkle.length`, which is
`undefined`, so it never runs), and default `sliceIndex` to the summed shard
byte length when not supplied. -/
structure DAGS where
  shards : List Buf
  leaves : List Buf
  merkle : MerkleTreeS
  entries : List (Buf × Buf)
  sliceIndex : Nat

def dagNew (dflt : Hasher) (shards : List Buf) (sliceIndexOpt : Option Nat)
    (hashFuncOpt : Option Hasher) : DAGS :=
  let hf := hashFuncOpt.getD dflt
  let leaves := shards.map hf
  { shards := shards
    leaves := leaves
    merkle := mkMerkleTreeOk hf leaves
    entries := leaves.zip shards
    sliceIndex := sliceIndexOpt.getD (sumLens shards) }

/-- The metadata record serialized by `toMetadata` (spec §6): exactly the
keys `n`, `l`, `r`, `s`. -/
structure MetadataRec where
  n : String
  l : List String
  r : String
  s : Nat
deriving DecidableEq

/-- `name || 'blob'`: an absent or empty (falsy) name defaults to `"blob"`. -/
def jsDefaultName : Option String → String
  | none => "blob"
  | some s => if s = "" then "blob" else s

/-- Escaping of `JSON.stringify` for the string values serialized here
(names and hex digests carry no control characters). -/
def jsonEscape (s : String) : String :=
  String.join (s.toList.map (fun c =>
    if c = '"' then "\\\"" else if c = '\\' then "\\\\" else String.mk [c]))

/-- `JSON.stringify({n, l, r, s})`: object keys in insertion order. -/
def metadataJson (n : String) (l : List String) (r : String) (s : Nat) : String :=
  "\x7b\"n\":\"" ++ jsonEscape n ++ "\",\"l\":[" ++
    String.intercalate "," (l.map (fun x => "\"" ++ jsonEscape x ++ "\"")) ++
    "],\"r\":\"" ++ jsonEscape r ++ "\",\"s\":" ++ toString s ++ "\x7d"

/-- The record assembled inside `toMetadata` before serialization.  When the
root row is empty, `this.merkle.root()` is `undefined` and
`.toString('hex')` throws, embedded as an error. -/
def toMetadataRec (d : DAGS) (name : Option String) : Except String MetadataRec :=
  match treeRoot d.merkle with
  | none => .error "TypeError: cannot read toString of undefined"
  | some r =>
    .ok { n := jsDefaultName name
          l := d.leaves.map bufToHex
          r := bufToHex r
          s := d.sliceIndex }

/-- `toMetadata(name)` from `dag.js`: the `JSON.stringify` of the record. -/
def toMetadata (d : DAGS) (name : Option String) : Except String String :=
  (toMetadataRec d name).map (fun m => metadataJson m.n m.l m.r m.s)

/-- `DAG.DEFAULT_INPUT_SIZE`: the shorthand string `'4M'`. -/
def dagDefaultInputSize : JSVal := .str "4M"

/-- The `.map` callback body of `DAG.fromBuffer`: allocate a `sliceSize`
buffer (which throws for a string or non-integer size) and pad the shard
into it. -/
def fromBufferPad (sliceSize : JSVal) (src : Nat → Buf) (randomFill : Bool)
    (s : Buf) : Except String Buf :=
  match bufferAlloc sliceSize with
  | .error e => .error e
  | .ok n => .ok (padShard src s n randomFill)

/-- `DAG.fromBuffer`: split the buffer by bytes with `sliceSize`, pad every
resulting shard to `Buffer.alloc(sliceSize)` bytes (zero fill, or random
fill from the injected source `src` when requested), and construct the DAG
with `sliceIndex = buffer.length`.  `padLastSlice` is accepted and ignored,
exactly as in the source. -/
def fromBuffer (dflt : Hasher) (buffer : Buf) (sliceSize : JSVal) (hashFunc : Hasher)
    (padLastSlice randomFill : Bool) (src : Nat → Buf) : Except String DAGS :=
  match splitSync buffer ⟨none, some sliceSize, none⟩ with
  | .error e => .error e
  | .ok raw =>
    match raw.mapM (fromBufferPad sliceSize src randomFill) with
    | .error e => .error e
    | .ok shards => .ok (dagNew dflt shards (some buffer.length) (some hashFunc))

/-! ## Lemmas about the splitter -/

theorem splitByBytes_nil (n : Nat) : splitByBytes [] n = [] := by
  unfold splitByBytes
  simp

theorem splitByBytes_cons (b : Buf) (n : Nat) (hb : b ≠ []) (hn : n ≠ 0) :
    splitByBytes b n = b.take n :: splitByBytes (b.drop n) n := by
  rw [splitByBytes]
  simp [hb, hn]

theorem splitByBytes_flatten (n : Nat) (hn : 1 ≤ n) :
    ∀ b : Buf, (splitByBytes b n).flatten = b := by
  have H : ∀ (k : Nat) (b : Buf), b.length ≤ k → (splitByBytes b n).flatten = b := by
    intro k
    induction k with
    | zero =>
      intro b hb
      have : b = [] := List.eq_nil_of_length_eq_zero (by omega)
      subst this
      simp [splitByBytes_nil]
    | succ k ih =>
      intro b hb
      by_cases hempty : b = []
      · subst hempty
        simp [splitByBytes_nil]
      · rw [splitByBytes_cons b n hempty (by omega)]
        simp only [List.flatten_cons]
        rw [ih (b.drop n) (by simp [List.length_drop]; omega)]
        exact List.take_append_drop n b
  intro b
  exact H b.length b le_rfl

theorem splitByBytes_dropLast (n : Nat) (hn : 1 ≤ n) :
    ∀ b : Buf, ∀ c ∈ (splitByBytes b n).dropLast, c.length = n := by
  have H : ∀ (k : Nat) (b : Buf), b.length ≤ k →
      ∀ c ∈ (splitByBytes b n).dropLast, c.length = n := by
    intro k
    induction k with
    | zero =>
      intro b hb
      have : b = [] := List.eq_nil_of_length_eq_zero (by omega)
      subst this
      simp [splitByBytes_nil]
    | succ k ih =>
      intro b hb c hc
      by_cases hempty : b = []
      · subst hempty
        simp [splitByBytes_nil] at hc
      · rw [splitByBytes_cons b n hempty (by omega)] at hc
        by_cases hrest : b.drop n = []
        · rw [hrest, splitByBytes_nil] at hc
          simp at hc
        · rw [splitByBytes_cons (b.drop n) n hrest (by omega)] at hc
          rw [List.dropLast_cons₂] at hc
          rcases List.mem_cons.mp hc with h1 | h2
          · subst h1
            have hlen : n < b.length := by
              by_contra hle
              exact hrest (List.drop_eq_nil_of_le (by omega))
            simp [List.length_take]
            omega
          · have := ih (b.drop n) (by simp [List.length_drop]; omega) c
            rw [splitByBytes_cons (b.drop n) n hrest (by omega)] at this
            exact this h2
  intro b
  exact H b.length b le_rfl

theorem splitByBytes_getLast (n : Nat) (hn : 1 ≤ n) :
    ∀ b : Buf, b ≠ [] → ∀ c, (splitByBytes b n).getLast? = some c →
      1 ≤ c.length ∧ c.length ≤ n := by
  have H : ∀ (k : Nat) (b : Buf), b.length ≤ k → b ≠ [] →
      ∀ c, (splitByBytes b n).getLast? = some c → 1 ≤ c.length ∧ c.length ≤ n := by
    intro k
    induction k with
    | zero =>
      intro b hb hne
      exact absurd (List.eq_nil_of_length_eq_zero (by omega)) hne
    | succ k ih =>
      intro b hb hne c hc
      rw [splitByBytes_cons b n hne (by omega)] at hc
      by_cases hrest : b.drop n = []
      · rw [hrest, splitByBytes_nil] at hc
        simp at hc
        have hble : b.length ≤ n := by
          by_contra hgt
          have : b.drop n ≠ [] := by
            intro hdrop
            have := List.length_drop n b
            rw [hdrop] at this
            simp at this
            omega
          exact this hrest
        have : b.take n = b := List.take_of_length_le hble
        rw [this] at hc
        subst hc
        constructor
        · have : b.length ≠ 0 := fun h => hne (List.eq_nil_of_length_eq_zero h)
          omega
        · exact hble
      · rw [splitByBytes_cons (b.drop n) n hrest (by omega)] at hc
        rw [List.getLast?_cons_cons] at hc
        have := ih (b.drop n) (by simp [List.length_drop]; omega) hrest c
        rw [splitByBytes_cons (b.drop n) n hrest (by omega)] at this
        exact this hc
  intro b hne c
  exact H b.length b le_rfl hne c

/-- C3: splitting a buffer by a positive byte count `n` yields shards that
are all exactly `n` bytes except possibly the last, whose length is between
1 and `n`; the concatenation of the shards in order is the original buffer,
and the empty buffer yields no shards. -/
theorem c3_split_partition (b : Buf) (n : Nat) (hn : 1 ≤ n) :
    (splitByBytes b n).flatten = b
    ∧ (∀ c ∈ (splitByBytes b n).dropLast, c.length = n)
    ∧ (∀ c, (splitByBytes b n).getLast? = some c → 1 ≤ c.length ∧ c.length ≤ n)
    ∧ splitByBytes ([] : Buf) n = [] := by
  refine ⟨splitByBytes_flatten n hn b, splitByBytes_dropLast n hn b, ?_, splitByBytes_nil n⟩
  intro c hc
  by_cases hb : b = []
  · subst hb
    rw [splitByBytes_nil] at hc
    simp at hc
  · exact splitByBytes_getLast n hn b hb c hc

/-- C3 witness: the partition property at `b = [0, 1, 2]`, `n = 2`. -/
theorem c3_split_partition_witness :
    (splitByBytes [0, 1, 2] 2).flatten = [0, 1, 2]
    ∧ (∀ c ∈ (splitByBytes [0, 1, 2] 2).dropLast, c.length = 2)
    ∧ (∀ c, (splitByBytes [0, 1, 2] 2).getLast? = some c → 1 ≤ c.length ∧ c.length ≤ 2)
    ∧ splitByBytes ([] : Buf) 2 = [] :=
  c3_split_partition [0, 1, 2] 2 (by decide)

/-! ## Lemmas about the Merkle tree builder -/

theorem getNodes_length (h : Hasher) : ∀ e : List Buf,
    (getNodes h e).length = (e.length + 1) / 2
  | [] => rfl
  | [x] => by simp [getNodes]
  | x :: y :: rest => by
    simp only [getNodes, List.length_cons]
    rw [getNodes_length h rest]
    omega

theorem getNodes_pair (h : Hasher) : ∀ (e : List Buf) (k : Nat) (a b : Buf),
    e[2 * k]? = some a → e[2 * k + 1]? = some b →
    (getNodes h e)[k]? = some (h (a ++ b))
  | [], k, a, b => by simp
  | [x], k, a, b => by
    intro h1 h2
    rw [List.getElem?_eq_none (by simp only [List.length_cons, List.length_nil]; omega)] at h2
    simp at h2
  | x :: y :: rest, k, a, b => by
    intro h1 h2
    cases k with
    | zero =>
      simp at h1 h2
      subst h1
      subst h2
      simp [getNodes]
    | succ k =>
      have e1 : (x :: y :: rest)[2 * (k + 1)]? = rest[2 * k]? := by
        have : 2 * (k + 1) = 2 * k + 1 + 1 := by omega
        rw [this]
        simp
      have e2 : (x :: y :: rest)[2 * (k + 1) + 1]? = rest[2 * k + 1]? := by
        have : 2 * (k + 1) + 1 = 2 * k + 1 + 1 + 1 := by omega
        rw [this]
        simp
      rw [e1] at h1
      rw [e2] at h2
      simp only [getNodes, List.getElem?_cons_succ]
      exact getNodes_pair h rest k a b h1 h2

theorem getNodes_carry (h : Hasher) : ∀ e : List Buf, e.length % 2 = 1 →
    (getNodes h e)[e.length / 2]? = e[e.length - 1]?
  | [] => by simp
  | [x] => by simp [getNodes]
  | x :: y :: rest => by
    intro hodd
    have hr : rest.length % 2 = 1 := by
      simp only [List.length_cons] at hodd
      omega
    have hrpos : 1 ≤ rest.length := by omega
    have ih := getNodes_carry h rest hr
    simp only [getNodes, List.length_cons]
    have hidx : (rest.length + 1 + 1) / 2 = rest.length / 2 + 1 := by omega
    have hidx2 : rest.length + 1 + 1 - 1 = rest.length - 1 + 1 + 1 := by omega
    rw [hidx, hidx2]
    simp only [List.getElem?_cons_succ]
    rw [ih]

theorem buildRows_length (h : Hasher) : ∀ (d : Nat) (b : List Buf),
    (buildRows h d b).length = d + 1
  | 0, b => rfl
  | d + 1, b => by
    simp only [buildRows, List.length_append, List.length_cons, List.length_nil]
    rw [buildRows_length h d]

theorem buildRows_last (h : Hasher) : ∀ (d : Nat) (b : List Buf),
    (buildRows h d b)[d]? = some b
  | 0, b => rfl
  | d + 1, b => by
    simp only [buildRows]
    rw [List.getElem?_append_right (buildRows_length h d (getNodes h b)).le]
    rw [buildRows_length h d]
    simp

theorem buildRows_adj (h : Hasher) : ∀ (d : Nat) (b : List Buf) (j : Nat), j + 1 ≤ d →
    (buildRows h d b)[j]? = ((buildRows h d b)[j + 1]?).map (getNodes h)
  | 0, _, j => by intro hj; omega
  | d + 1, b, j => by
    intro hj
    simp only [buildRows]
    by_cases hlast : j = d
    · subst hlast
      rw [List.getElem?_append_left
        (show j < (buildRows h j (getNodes h b)).length by rw [buildRows_length h j]; omega)]
      rw [buildRows_last h j (getNodes h b)]
      rw [List.getElem?_append_right (buildRows_length h j (getNodes h b)).le]
      rw [buildRows_length h j]
      simp
    · have hj2 : j + 1 ≤ d := by omega
      rw [List.getElem?_append_left
        (show j < (buildRows h d (getNodes h b)).length by rw [buildRows_length h d]; omega)]
      rw [List.getElem?_append_left
        (show j + 1 < (buildRows h d (getNodes h b)).length by rw [buildRows_length h d]; omega)]
      exact buildRows_adj h d (getNodes h b) j hj2

theorem treeDepth_one : treeDepth 1 = 0 := by
  unfold treeDepth depthFrom
  norm_num

theorem treeDepth_two : treeDepth 2 = 1 := by
  unfold treeDepth
  rw [depthFrom]
  norm_num
  rw [depthFrom]
  norm_num

theorem treeDepth_three : treeDepth 3 = 2 := by
  unfold treeDepth
  rw [depthFrom]
  norm_num
  rw [depthFrom]
  norm_num
  rw [depthFrom]
  norm_num

/-- C1: the tree builder derives each higher row from a row of `m` elements
by hashing the concatenation of each adjacent pair (left child first) and,
when `m` is odd, carrying the final unpaired element up unchanged; in
particular the root over 1 leaf is that leaf, over 2 leaves it is
`h(l0 ++ l1)`, and over 3 leaves it is `h(h(l0 ++ l1) ++ l2)`. -/
theorem c1_merkle_rows (dflt h : Hasher) (l0 l1 l2 : Buf)
    (h01 : l0.length = l1.length) (h12 : l1.length = l2.length) :
    (∀ (leaves : List Buf) (t : MerkleTreeS), leaves ≠ [] →
        mkMerkleTree dflt leaves (.func h) = .ok t →
        ∀ j, j + 1 < t.rows.length →
          t.rows[j]? = (t.rows[j + 1]?).map (getNodes h))
    ∧ (∀ (e : List Buf) (k : Nat) (a b : Buf),
        e[2 * k]? = some a → e[2 * k + 1]? = some b →
        (getNodes h e)[k]? = some (h (a ++ b)))
    ∧ (∀ e : List Buf, e.length % 2 = 1 →
        (getNodes h e)[e.length / 2]? = e[e.length - 1]?)
    ∧ (∀ e : List Buf, (getNodes h e).length = (e.length + 1) / 2)
    ∧ (∀ t, mkMerkleTree dflt [l0] (.func h) = .ok t → treeRoot t = some l0)
    ∧ (∀ t, mkMerkleTree dflt [l0, l1] (.func h) = .ok t →
        treeRoot t = some (h (l0 ++ l1)))
    ∧ (∀ t, mkMerkleTree dflt [l0, l1, l2] (.func h) = .ok t →
        treeRoot t = some (h (h (l0 ++ l1) ++ l2))) := by
  refine ⟨?_, getNodes_pair h, getNodes_carry h, getNodes_length h, ?_, ?_, ?_⟩
  · intro leaves t hne hmk j hj
    have ht : t = mkMerkleTreeOk h leaves := by
      simpa [mkMerkleTree] using hmk.symm
    subst ht
    have hlen : (mkMerkleTreeOk h leaves).rows.length = treeDepth leaves.length + 1 := by
      simp [mkMerkleTreeOk, buildRows_length]
    rw [hlen] at hj
    exact buildRows_adj h (treeDepth leaves.length) leaves j (by omega)
  · intro t hmk
    have ht : t = mkMerkleTreeOk h [l0] := by
      simpa [mkMerkleTree] using hmk.symm
    subst ht
    simp [mkMerkleTreeOk, treeRoot, treeDepth_one, buildRows]
  · intro t hmk
    have ht : t = mkMerkleTreeOk h [l0, l1] := by
      simpa [mkMerkleTree] using hmk.symm
    subst ht
    simp [mkMerkleTreeOk, treeRoot, treeDepth_two, buildRows, getNodes]
  · intro t hmk
    have ht : t = mkMerkleTreeOk h [l0, l1, l2] := by
      simpa [mkMerkleTree] using hmk.symm
    subst ht
    simp [mkMerkleTreeOk, treeRoot, treeDepth_three, buildRows, getNodes]

/-- C1 witness: the row construction and the 3-leaf root shape at the
concrete single-byte leaves `[0]`, `[1]`, `[2]` with an explicit hasher. -/
theorem c1_merkle_rows_witness :
    treeRoot (mkMerkleTreeOk (fun (b : Buf) => b) [[0], [1], [2]])
      = some ((fun (b : Buf) => b) ((fun (b : Buf) => b) ([0] ++ [1]) ++ [2])) :=
  (c1_merkle_rows (fun b => b) (fun b => b) [0] [1] [2] rfl rfl).2.2.2.2.2.2
    (mkMerkleTreeOk (fun (b : Buf) => b) [[0], [1], [2]]) rfl

/-! ## Lemmas about filling and padding -/

theorem cycleTo_length (p : Buf) (n : Nat) : (cycleTo p n).length = n := by
  simp [cycleTo]

theorem jsFill_length (buf p : Buf) (start : Nat) :
    (jsFill buf p start).length = buf.length := by
  simp only [jsFill, List.length_append, List.length_take, cycleTo_length]
  omega

theorem cycleTo_take (p : Buf) (n : Nat) (hp : p.length ≤ n) :
    (cycleTo p n).take p.length = p := by
  apply List.ext_getElem
  · simp [cycleTo_length]
    omega
  · intro i h1 h2
    simp only [cycleTo, List.getElem_take, List.getElem_map, List.getElem_range]
    rw [Nat.mod_eq_of_lt h2]
    exact List.getD_eq_getElem p 0 h2

theorem cycleTo_single_zero (n : Nat) : ∀ b ∈ cycleTo [0] n, b = 0 := by
  intro b hb
  simp only [cycleTo, List.mem_map, List.mem_range] at hb
  obtain ⟨i, _, heq⟩ := hb
  subst heq
  simp [Nat.mod_one]

theorem jsFill_take (buf p : Buf) (start : Nat) (hs : start ≤ buf.length) :
    (jsFill buf p start).take start = buf.take start := by
  simp only [jsFill]
  rw [List.take_append_of_le_length (by simp [List.length_take]; omega)]
  rw [List.take_take]
  simp [Nat.min_self]

theorem jsFill_drop (buf p : Buf) (start : Nat) (hs : start ≤ buf.length) :
    (jsFill buf p start).drop start = cycleTo p (buf.length - start) := by
  simp only [jsFill]
  rw [List.drop_append_of_le_length (by simp [List.length_take]; omega)]
  rw [List.drop_take]
  simp

theorem padShard_length (src : Nat → Buf) (s : Buf) (n : Nat) (rf : Bool) :
    (padShard src s n rf).length = n := by
  unfold padShard
  by_cases hc : (rf : Prop) ∧ s.length < n
  · simp only [if_pos hc, jsFill_length, List.length_replicate]
  · simp only [if_neg hc, jsFill_length, List.length_replicate]

theorem padShard_take (src : Nat → Buf) (s : Buf) (n : Nat) (rf : Bool)
    (hs : s.length ≤ n) : (padShard src s n rf).take s.length = s := by
  have hbase : (jsFill (List.replicate n 0) s 0).take s.length = s := by
    simp only [jsFill, List.take_nil, List.nil_append, List.length_replicate,
      Nat.sub_zero, List.take_zero]
    exact cycleTo_take s n hs
  have hlenbase : (jsFill (List.replicate n 0) s 0).length = n := by
    simp [jsFill_length]
  unfold padShard
  by_cases hc : (rf : Prop) ∧ s.length < n
  · rw [if_pos hc]
    rw [jsFill_take _ _ _ (by rw [hlenbase]; omega), hbase]
  · rw [if_neg hc]
    rw [jsFill_take _ _ _ (by rw [hlenbase]; omega), hbase]

theorem padShard_zero_tail (src : Nat → Buf) (s : Buf) (n : Nat)
    (hs : s.length ≤ n) : ∀ b ∈ (padShard src s n false).drop s.length, b = 0 := by
  unfold padShard
  rw [if_neg (by simp)]
  rw [jsFill_drop _ _ _ (by simp [jsFill_length]; omega)]
  rw [jsFill_length, List.length_replicate]
  exact cycleTo_single_zero (n - s.length)

theorem padShard_rand_tail_length (src : Nat → Buf) (s : Buf) (n : Nat)
    (hs : s.length ≤ n) :
    ((padShard src s n true).drop s.length).length = n - s.length := by
  rw [List.length_drop, padShard_length]

/-- C5: padding a splitter shard of length `s ≤ n` with zero fill gives a
shard of length exactly `n` that starts with the original bytes and ends in
`n - s` zero bytes; random fill also preserves the original prefix and fills
a region of length exactly `n - s`. -/
theorem c5_padding (s : Buf) (n : Nat) (hs : s.length ≤ n) (src : Nat → Buf) :
    (padShard src s n false).length = n
    ∧ (padShard src s n false).take s.length = s
    ∧ (∀ b ∈ (padShard src s n false).drop s.length, b = 0)
    ∧ (padShard src s n true).length = n
    ∧ (padShard src s n true).take s.length = s
    ∧ ((padShard src s n true).drop s.length).length = n - s.length :=
  ⟨padShard_length src s n false, padShard_take src s n false hs,
    padShard_zero_tail src s n hs, padShard_length src s n true,
    padShard_take src s n true hs, padShard_rand_tail_length src s n hs⟩

/-- C5 witness: padding the shard `[5]` to 2 bytes with the random source
that yields nines. -/
theorem c5_padding_witness :
    (padShard (fun k => List.replicate k 9) [5] 2 false).length = 2
    ∧ (padShard (fun k => List.replicate k 9) [5] 2 false).take 1 = [5]
    ∧ (∀ b ∈ (padShard (fun k => List.replicate k 9) [5] 2 false).drop 1, b = 0)
    ∧ (padShard (fun k => List.replicate k 9) [5] 2 true).length = 2
    ∧ (padShard (fun k => List.replicate k 9) [5] 2 true).take 1 = [5]
    ∧ ((padShard (fun k => List.replicate k 9) [5] 2 true).drop 1).length = 2 - 1 :=
  c5_padding [5] 2 (by decide) (fun k => List.replicate k 9)

/-! ## C7: what the MerkleTree constructor actually checks -/

/-- C7 counterexample: the constructor accepts an empty leaf sequence and
leaves of mismatched digest lengths without raising; the claimed
`InvalidInput` failures do not happen. -/
theorem c7_counterexample :
    (mkMerkleTree (fun b => b) ([] : List Buf) (.func (fun b => b))).isOk = true
    ∧ (mkMerkleTree (fun b => b) [[0], [1, 2]] (.func (fun b => b))).isOk = true :=
  ⟨rfl, rfl⟩

/-- C7 amended: construction fails (assertion failure) exactly when the
supplied hasher argument is truthy but not callable; a falsy hasher falls
back to the default hash, and empty leaf sequences or mismatched digest
lengths are accepted without any error. -/
theorem c7_amended (dflt : Hasher) (leaves : List Buf) :
    mkMerkleTree dflt leaves .nonFunc = .error "Invalid hash function supplied"
    ∧ (∀ f : Hasher, mkMerkleTree dflt leaves (.func f) = .ok (mkMerkleTreeOk f leaves))
    ∧ mkMerkleTree dflt leaves .undef = .ok (mkMerkleTreeOk dflt leaves) :=
  ⟨rfl, fun _ => rfl, rfl⟩

/-! ## Lemmas about checkOptions and splitSync -/

theorem ratFloorNat_eq_floor (q : ℚ) (hq : 0 ≤ q) : (ratFloorNat q : ℤ) = Int.floor q := by
  unfold ratFloorNat
  rw [Rat.floor_def]
  rw [Int.ofNat_div]
  rw [Int.toNat_of_nonneg (Rat.num_nonneg.mpr hq)]
  exact Int.tdiv_eq_ediv (Rat.num_nonneg.mpr hq) (Int.ofNat_nonneg q.den)

theorem checkOptions_bytes (v : JSVal) :
    checkOptions ⟨none, some v, none⟩ =
      (parseSizeVal v).map (fun n => (⟨none, some n, none⟩ : ParsedOptions)) := by
  cases hp : parseSizeVal v <;>
    simp [checkOptions, parseOpt, hp, Except.map]

theorem splitSync_bytes (b : Buf) (v : JSVal) (n : Nat) (hp : parseSizeVal v = .ok n) :
    splitSync b ⟨none, some v, none⟩ = .ok (splitByBytes b n) := by
  simp [splitSync, checkOptions_bytes, hp, Except.map, splitDispatch]

theorem splitSync_bytes_err (b : Buf) (v : JSVal) (e : String)
    (hp : parseSizeVal v = .error e) :
    splitSync b ⟨none, some v, none⟩ = .error e := by
  simp [splitSync, checkOptions_bytes, hp, Except.map]

theorem isAlpha_not_digit (c : Char) (h : c.isAlpha = true) : c.isDigit = false := by
  simp only [Char.isAlpha, Char.isUpper, Char.isLower, Char.isDigit, Bool.or_eq_true,
    Bool.and_eq_true, decide_eq_true_eq, UInt32.le_def, BitVec.le_def] at h
  simp only [Char.isDigit, Bool.and_eq_false_iff, decide_eq_false_iff_not, not_le,
    UInt32.lt_def, BitVec.lt_def, UInt32.le_def, BitVec.le_def]
  norm_num at h ⊢
  omega

/-- A non-empty, purely alphabetic string coerces to NaN in the model; JS
`Number()` agrees (it yields NaN, or for the literal `"Infinity"` a value
that `isSafe` rejects with the same error). -/
theorem strToNumber_alpha (s : String) (hne : s.toList ≠ [])
    (hal : ∀ c ∈ s.toList, c.isAlpha = true) : strToNumber s = none := by
  obtain ⟨c, cs2, hcs⟩ := List.exists_cons_of_ne_nil hne
  have hc : c.isAlpha = true := hal c (by rw [hcs]; exact List.mem_cons_self c cs2)
  have hcd : c.isDigit = false := isAlpha_not_digit c hc
  have hcm : c ≠ '-' := fun he => absurd (he ▸ hc) (by decide)
  have hcp : c ≠ '.' := fun he => absurd (he ▸ hc) (by decide)
  have hs0 : s ≠ "" := by
    intro h
    rw [h] at hne
    exact hne rfl
  unfold strToNumber
  rw [if_neg hs0]
  simp only [hcs, List.headD_cons, hcm, if_false, List.takeWhile_cons, hcd,
    Bool.false_eq_true, List.length_nil, List.drop_zero]
  split
  · simp_all
  · rename_i heq
    exact absurd (List.head_eq_of_cons_eq heq.symm).symm hcp
  · rfl

/-- A purely alphabetic string also fails the shorthand regex (no digits). -/
theorem parseShorthand_alpha (s : String) (hne : s.toList ≠ [])
    (hal : ∀ c ∈ s.toList, c.isAlpha = true) :
    parseSizeVal.parseShorthand s = none := by
  obtain ⟨c, cs2, hcs⟩ := List.exists_cons_of_ne_nil hne
  have hc : c.isAlpha = true := hal c (by rw [hcs]; exact List.mem_cons_self c cs2)
  have hcd : c.isDigit = false := isAlpha_not_digit c hc
  unfold parseSizeVal.parseShorthand
  simp only [hcs, List.takeWhile_cons, hcd, Bool.false_eq_true, if_false]
  simp

/-- C9 counterexample: the non-integer size `5/2` is accepted (floored to 2)
rather than rejected, so "fails for every non-integer size" is false. -/
theorem c9_counterexample :
    splitSync [0, 1, 2] ⟨none, some (.num (5 / 2 : ℚ)), none⟩ = .ok [[0, 1], [2]] := by
  have hp : parseSizeVal (.num (5 / 2 : ℚ)) = .ok 2 := by
    have hfloor : ratFloorNat (5 / 2 : ℚ) = 2 := by
      have h := ratFloorNat_eq_floor (5 / 2 : ℚ) (by norm_num)
      have h2 : Int.floor (5 / 2 : ℚ) = 2 := by norm_num
      rw [h2] at h
      exact_mod_cast h
    have hsafe : isSafeQ (5 / 2 : ℚ) := by
      unfold isSafeQ ratMaxSafe
      constructor <;> norm_num
    simp only [parseSizeVal, jsToNumber]
    rw [if_pos ⟨hsafe, by norm_num⟩, hfloor]
  rw [splitSync_bytes [0, 1, 2] (.num (5 / 2 : ℚ)) 2 hp]
  have h1 : splitByBytes [2] 2 = [[2]] := by
    rw [splitByBytes_cons [2] 2 (by decide) (by decide)]
    have e1 : ([2] : Buf).take 2 = [2] := rfl
    have e2 : ([2] : Buf).drop 2 = [] := rfl
    rw [e1, e2, splitByBytes_nil]
  rw [splitByBytes_cons [0, 1, 2] 2 (by decide) (by decide)]
  have e1 : ([0, 1, 2] : Buf).take 2 = [0, 1] := rfl
  have e2 : ([0, 1, 2] : Buf).drop 2 = [2] := rfl
  rw [e1, e2, h1]

/-- C9 amended: the splitter fails with `InvalidConfiguration` when more than
one splitting mode is requested, when no mode is requested, when the size is
a string that is neither numeric nor a size shorthand (stated here for
purely alphabetic strings, on which JS `Number()` coercion certainly yields
no usable number), or when the numeric size is below 1 or not exactly
representable; but a non-integer numeric size of at least 1 is not rejected
— it is floored and splitting proceeds. -/
theorem c9_amended (b : Buf) :
    (∀ o : SplitOptions,
        (o.lines.isSome ∧ o.bytes.isSome) ∨ (o.bytes.isSome ∧ o.line_bytes.isSome)
          ∨ (o.lines.isSome ∧ o.line_bytes.isSome) →
        splitSync b o = .error "Cannot split in more than one way")
    ∧ splitSync b ⟨none, none, none⟩ = .error "Splitting way is not specified"
    ∧ (∀ s : String, s.toList ≠ [] → (∀ c ∈ s.toList, c.isAlpha = true) →
        splitSync b ⟨none, some (.str s), none⟩ = .error "Invalid number of bytes")
    ∧ (∀ q : ℚ, q < 1 →
        splitSync b ⟨none, some (.num q), none⟩ = .error "Invalid number of bytes")
    ∧ (∀ q : ℚ, ¬ isSafeQ q →
        splitSync b ⟨none, some (.num q), none⟩ = .error "Invalid number of bytes")
    ∧ (∀ q : ℚ, isSafeQ q → 1 ≤ q →
        splitSync b ⟨none, some (.num q), none⟩ = .ok (splitByBytes b (ratFloorNat q))) := by
  refine ⟨?_, rfl, ?_, ?_, ?_, ?_⟩
  · intro o ho
    rcases o with ⟨ol, ob, olb⟩
    simp only at ho
    rcases ho with ⟨h1, h2⟩ | ⟨h1, h2⟩ | ⟨h1, h2⟩ <;>
      simp [splitSync, checkOptions, h1, h2]
  · intro s hne hal
    exact splitSync_bytes_err b (.str s) _
      (by simp [parseSizeVal, jsToNumber, strToNumber_alpha s hne hal,
        parseShorthand_alpha s hne hal])
  · intro q hq
    refine splitSync_bytes_err b (.num q) _ ?_
    simp only [parseSizeVal, jsToNumber]
    rw [if_neg (by intro hcon; exact absurd hcon.2 (by exact not_le.mpr hq))]
  · intro q hq
    refine splitSync_bytes_err b (.num q) _ ?_
    simp only [parseSizeVal, jsToNumber]
    rw [if_neg (by intro hcon; exact hq hcon.1)]
  · intro q h1 h2
    refine splitSync_bytes b (.num q) _ ?_
    simp only [parseSizeVal, jsToNumber]
    rw [if_pos ⟨h1, h2⟩]

/-- C9 witness: conflicting modes, a missing mode, the non-numeric size
`"foo"`, the non-positive size 0, and the valid size 3 at `b = [7]`. -/
theorem c9_amended_witness :
    splitSync [7] ⟨some (.num 1), some (.num 2), none⟩ =
      .error "Cannot split in more than one way"
    ∧ splitSync [7] ⟨none, none, none⟩ = .error "Splitting way is not specified"
    ∧ splitSync [7] ⟨none, some (.str "foo"), none⟩ = .error "Invalid number of bytes"
    ∧ splitSync [7] ⟨none, some (.num 0), none⟩ = .error "Invalid number of bytes"
    ∧ splitSync [7] ⟨none, some (.num 3), none⟩ = .ok (splitByBytes [7] (ratFloorNat 3)) :=
  ⟨(c9_amended [7]).1 ⟨some (.num 1), some (.num 2), none⟩ (by simp),
    (c9_amended [7]).2.1,
    (c9_amended [7]).2.2.1 "foo" (by decide) (by decide),
    (c9_amended [7]).2.2.2.1 0 (by norm_num),
    (c9_amended [7]).2.2.2.2.2 3 (by decide) (by norm_num)⟩

/-! ## Lemmas about natural-number sizes and fromBuffer -/

theorem ratFloorNat_natCast (n : Nat) : ratFloorNat ((n : ℚ)) = n := by
  unfold ratFloorNat
  rw [Rat.num_natCast, Rat.den_natCast]
  simp

theorem isSafeQ_natCast (n : Nat) (h : (n : ℚ) ≤ ratMaxSafe) : isSafeQ ((n : ℚ)) := by
  constructor
  · calc -ratMaxSafe ≤ 0 := by norm_num [ratMaxSafe]
      _ ≤ (n : ℚ) := Nat.cast_nonneg n
  · exact h

theorem parseSizeVal_natCast (n : Nat) (h1 : 1 ≤ n) (h2 : (n : ℚ) ≤ ratMaxSafe) :
    parseSizeVal (.num ((n : ℚ))) = .ok n := by
  simp only [parseSizeVal, jsToNumber]
  rw [if_pos ⟨isSafeQ_natCast n h2, by exact_mod_cast h1⟩]
  rw [ratFloorNat_natCast]

theorem bufferAlloc_natCast (n : Nat) : bufferAlloc (.num ((n : ℚ))) = .ok n := by
  simp only [bufferAlloc]
  rw [if_pos ⟨Rat.den_natCast n, by rw [Rat.num_natCast]; exact Int.ofNat_nonneg n⟩]
  rw [Rat.num_natCast]
  simp

theorem mapM_ok {α β : Type} (g : α → β) :
    ∀ l : List α, l.mapM (fun a => (Except.ok (g a) : Except String β)) = .ok (l.map g)
  | [] => rfl
  | a :: l => by
    rw [List.mapM_cons]
    rw [mapM_ok g l]
    rfl

theorem fromBufferPad_num (n : Nat) (src : Nat → Buf) (rf : Bool) :
    fromBufferPad (.num ((n : ℚ))) src rf =
      fun s => (Except.ok (padShard src s n rf) : Except String Buf) := by
  funext s
  unfold fromBufferPad
  rw [bufferAlloc_natCast n]

theorem treeDepth_zero : treeDepth 0 = 0 := by
  unfold treeDepth
  rw [depthFrom]
  norm_num

theorem fromBuffer_num_nat (dflt : Hasher) (b : Buf) (n : Nat) (h1 : 1 ≤ n)
    (h2 : (n : ℚ) ≤ ratMaxSafe) (hf : Hasher) (pad rf : Bool) (src : Nat → Buf) :
    fromBuffer dflt b (.num ((n : ℚ))) hf pad rf src =
      .ok (dagNew dflt ((splitByBytes b n).map fun s => padShard src s n rf)
        (some b.length) (some hf)) := by
  unfold fromBuffer
  rw [splitSync_bytes b (.num ((n : ℚ))) n (parseSizeVal_natCast n h1 h2)]
  show (match (splitByBytes b n).mapM (fromBufferPad (.num ((n : ℚ))) src rf) with
    | .error e => (.error e : Except String DAGS)
    | .ok shards => .ok (dagNew dflt shards (some b.length) (some hf))) = _
  rw [fromBufferPad_num n src rf]
  rw [mapM_ok (fun s => padShard src s n rf) (splitByBytes b n)]

theorem padShard_false_src (src src2 : Nat → Buf) (s : Buf) (n : Nat) :
    padShard src s n false = padShard src2 s n false := by
  unfold padShard
  rw [if_neg (by simp), if_neg (by simp)]

theorem fromBufferPad_false_src (ss : JSVal) (src src2 : Nat → Buf) :
    fromBufferPad ss src false = fromBufferPad ss src2 false := by
  funext s
  unfold fromBufferPad
  cases bufferAlloc ss with
  | error e => rfl
  | ok n => simp only [padShard_false_src src src2]

theorem fromBuffer_false_const (dflt : Hasher) (b : Buf) (ss : JSVal) (hf : Hasher)
    (pad pad2 : Bool) (src src2 : Nat → Buf) :
    fromBuffer dflt b ss hf pad false src = fromBuffer dflt b ss hf pad2 false src2 := by
  unfold fromBuffer
  rw [fromBufferPad_false_src ss src src2]

theorem dagNew_shards (dflt : Hasher) (sh : List Buf) (si : Option Nat)
    (hfo : Option Hasher) : (dagNew dflt sh si hfo).shards = sh := rfl

theorem dagNew_sliceIndex_some (dflt : Hasher) (sh : List Buf) (k : Nat)
    (hfo : Option Hasher) : (dagNew dflt sh (some k) hfo).sliceIndex = k := rfl

theorem fromBuffer_ok_inv (dflt : Hasher) (buffer : Buf) (ss : JSVal) (hf : Hasher)
    (pad rf : Bool) (src : Nat → Buf) (d : DAGS)
    (h : fromBuffer dflt buffer ss hf pad rf src = .ok d) :
    ∃ raw shards, splitSync buffer ⟨none, some ss, none⟩ = .ok raw
      ∧ raw.mapM (fromBufferPad ss src rf) = .ok shards
      ∧ d = dagNew dflt shards (some buffer.length) (some hf) := by
  unfold fromBuffer at h
  rcases hs : splitSync buffer ⟨none, some ss, none⟩ with e | raw
  · rw [hs] at h
    exact Except.noConfusion h
  · rw [hs] at h
    have h2 : (match raw.mapM (fromBufferPad ss src rf) with
      | Except.error e => (Except.error e : Except String DAGS)
      | Except.ok shards =>
          Except.ok (dagNew dflt shards (some buffer.length) (some hf))) = Except.ok d := h
    rcases hm : raw.mapM (fromBufferPad ss src rf) with e | shards
    · rw [hm] at h2
      exact Except.noConfusion h2
    · rw [hm] at h2
      refine ⟨raw, shards, ?_, ?_, (Except.ok.inj h2).symm⟩
      · first
        | exact hs
        | rfl
      · first
        | exact hm
        | rfl

/-- C2: two independent constructions of a DAG from the same buffer and size
with zero-fill padding — even with different injected random sources and
different values of the ignored `padLastSlice` flag — produce identical
leaves, root, and `originalLength`, and serializing the metadata twice gives
byte-identical strings. -/
theorem c2_dag_determinism (dflt : Hasher) (b : Buf) (sz : JSVal) (hf : Hasher)
    (pad1 pad2 : Bool) (src1 src2 : Nat → Buf) (d1 d2 : DAGS) (name : Option String)
    (h1 : fromBuffer dflt b sz hf pad1 false src1 = .ok d1)
    (h2 : fromBuffer dflt b sz hf pad2 false src2 = .ok d2) :
    d1.leaves = d2.leaves ∧ treeRoot d1.merkle = treeRoot d2.merkle
    ∧ d1.sliceIndex = d2.sliceIndex
    ∧ ∀ m1 m2 : String, toMetadata d1 name = .ok m1 → toMetadata d1 name = .ok m2 →
        m1 = m2 := by
  rw [fromBuffer_false_const dflt b sz hf pad1 pad2 src1 src2, h2] at h1
  obtain rfl : d2 = d1 := Except.ok.inj h1
  refine ⟨rfl, rfl, rfl, ?_⟩
  intro m1 m2 hm1 hm2
  rw [hm1] at hm2
  exact Except.ok.inj hm2

/-- C2 witness: the buffer `[0, 1]` with size 2, zero fill, under two
different random sources and the two values of `padLastSlice`. -/
theorem c2_dag_determinism_witness :
    (dagNew (fun (x : Buf) => x)
        ((splitByBytes [0, 1] 2).map fun s => padShard (fun _ => ([] : Buf)) s 2 false)
        (some ([0, 1] : Buf).length) (some (fun (x : Buf) => x))).leaves
      = (dagNew (fun (x : Buf) => x)
          ((splitByBytes [0, 1] 2).map fun s => padShard (fun _ => ([7, 7] : Buf)) s 2 false)
          (some ([0, 1] : Buf).length) (some (fun (x : Buf) => x))).leaves
    ∧ treeRoot (dagNew (fun (x : Buf) => x)
        ((splitByBytes [0, 1] 2).map fun s => padShard (fun _ => ([] : Buf)) s 2 false)
        (some ([0, 1] : Buf).length) (some (fun (x : Buf) => x))).merkle
      = treeRoot (dagNew (fun (x : Buf) => x)
          ((splitByBytes [0, 1] 2).map fun s => padShard (fun _ => ([7, 7] : Buf)) s 2 false)
          (some ([0, 1] : Buf).length) (some (fun (x : Buf) => x))).merkle
    ∧ (dagNew (fun (x : Buf) => x)
        ((splitByBytes [0, 1] 2).map fun s => padShard (fun _ => ([] : Buf)) s 2 false)
        (some ([0, 1] : Buf).length) (some (fun (x : Buf) => x))).sliceIndex
      = (dagNew (fun (x : Buf) => x)
          ((splitByBytes [0, 1] 2).map fun s => padShard (fun _ => ([7, 7] : Buf)) s 2 false)
          (some ([0, 1] : Buf).length) (some (fun (x : Buf) => x))).sliceIndex
    ∧ ∀ m1 m2 : String,
        toMetadata (dagNew (fun (x : Buf) => x)
          ((splitByBytes [0, 1] 2).map fun s => padShard (fun _ => ([] : Buf)) s 2 false)
          (some ([0, 1] : Buf).length) (some (fun (x : Buf) => x))) none = .ok m1 →
        toMetadata (dagNew (fun (x : Buf) => x)
          ((splitByBytes [0, 1] 2).map fun s => padShard (fun _ => ([] : Buf)) s 2 false)
          (some ([0, 1] : Buf).length) (some (fun (x : Buf) => x))) none = .ok m2 →
        m1 = m2 :=
  c2_dag_determinism (fun x => x) [0, 1] (.num ((2 : Nat) : ℚ)) (fun x => x) true false
    (fun _ => []) (fun _ => [7, 7]) _ _ none
    (fromBuffer_num_nat (fun x => x) [0, 1] 2 (by norm_num)
      (by norm_num [ratMaxSafe]) (fun x => x) true false (fun _ => []))
    (fromBuffer_num_nat (fun x => x) [0, 1] 2 (by norm_num)
      (by norm_num [ratMaxSafe]) (fun x => x) false false (fun _ => [7, 7]))

/-- C4: every shard owned by a DAG built by `fromBuffer` with an integer
size `n` has length exactly `n`, whatever the (ignored) `padLastSlice`
toggle says; the padding step is applied to every shard uniformly and is a
no-op on a shard that is already full-size. -/
theorem c4_uniform_shards (dflt : Hasher) (b : Buf) (n : Nat) (hf : Hasher)
    (pad rf : Bool) (src : Nat → Buf) (d : DAGS)
    (h : fromBuffer dflt b (.num ((n : ℚ))) hf pad rf src = .ok d) :
    (∀ s ∈ d.shards, s.length = n)
    ∧ fromBuffer dflt b (.num ((n : ℚ))) hf true rf src
        = fromBuffer dflt b (.num ((n : ℚ))) hf false rf src
    ∧ (∀ s : Buf, s.length = n → padShard src s n rf = s) := by
  refine ⟨?_, rfl, ?_⟩
  · obtain ⟨raw, shards, hs, hm, rfl⟩ := fromBuffer_ok_inv dflt b _ hf pad rf src d h
    rw [fromBufferPad_num n src rf, mapM_ok (fun s => padShard src s n rf) raw] at hm
    obtain rfl : shards = raw.map (fun s => padShard src s n rf) :=
      (Except.ok.inj hm).symm
    rw [dagNew_shards]
    intro s hsm
    obtain ⟨t, _, rfl⟩ := List.mem_map.mp hsm
    exact padShard_length src t n rf
  · intro s hs2
    unfold padShard
    rw [if_neg (fun hcon => absurd hcon.2 (by omega))]
    have hcyc : cycleTo s n = s := by
      have h1 := cycleTo_take s n (le_of_eq hs2)
      rw [List.take_of_length_le (by rw [cycleTo_length]; omega)] at h1
      exact h1
    have hbase : jsFill (List.replicate n 0) s 0 = s := by
      unfold jsFill
      simp only [List.take_zero, List.nil_append, List.length_replicate, Nat.sub_zero]
      exact hcyc
    rw [hbase]
    unfold jsFill
    simp [cycleTo]

/-- C4 witness: the 3-byte buffer `[0, 1, 2]` with size 2 and zero fill. -/
theorem c4_uniform_shards_witness :
    (∀ s ∈ (dagNew (fun (x : Buf) => x)
        ((splitByBytes [0, 1, 2] 2).map fun s => padShard (fun _ => ([] : Buf)) s 2 false)
        (some ([0, 1, 2] : Buf).length) (some (fun (x : Buf) => x))).shards,
      s.length = 2)
    ∧ fromBuffer (fun (x : Buf) => x) [0, 1, 2] (.num ((2 : Nat) : ℚ)) (fun (x : Buf) => x)
        true false (fun _ => ([] : Buf))
      = fromBuffer (fun (x : Buf) => x) [0, 1, 2] (.num ((2 : Nat) : ℚ)) (fun (x : Buf) => x)
        false false (fun _ => ([] : Buf))
    ∧ (∀ s : Buf, s.length = 2 → padShard (fun _ => ([] : Buf)) s 2 false = s) :=
  c4_uniform_shards (fun x => x) [0, 1, 2] 2 (fun x => x) false false (fun _ => []) _
    (fromBuffer_num_nat (fun x => x) [0, 1, 2] 2 (by norm_num)
      (by norm_num [ratMaxSafe]) (fun x => x) false false (fun _ => []))

/-- C6: the metadata record has exactly the keys `n`, `l`, `r`, `s`, with
`n` the caller-supplied name defaulting to `"blob"`, `l` the lowercase hex
of every leaf in shard order, `r` the lowercase hex of the root, and `s` the
`originalLength`; `fromBuffer` sets `originalLength` to the buffer's byte
length, and direct construction defaults it to the summed shard lengths. -/
theorem c6_metadata_fields (dflt : Hasher) :
    (∀ (d : DAGS) (name : Option String) (m : MetadataRec),
        toMetadataRec d name = .ok m →
        m.n = jsDefaultName name
        ∧ m.l = d.leaves.map bufToHex
        ∧ (∀ r, treeRoot d.merkle = some r → m.r = bufToHex r)
        ∧ m.s = d.sliceIndex
        ∧ toMetadata d name = .ok (metadataJson m.n m.l m.r m.s))
    ∧ (∀ (buffer : Buf) (ss : JSVal) (hf : Hasher) (pad rf : Bool) (src : Nat → Buf)
        (d : DAGS), fromBuffer dflt buffer ss hf pad rf src = .ok d →
        d.sliceIndex = buffer.length)
    ∧ (∀ (shards : List Buf) (hfOpt : Option Hasher),
        (dagNew dflt shards none hfOpt).sliceIndex = sumLens shards) := by
  refine ⟨?_, ?_, ?_⟩
  · intro d name m hm
    have hm0 := hm
    unfold toMetadataRec at hm
    cases hroot : treeRoot d.merkle with
    | none =>
      rw [hroot] at hm
      exact Except.noConfusion hm
    | some r =>
      rw [hroot] at hm
      have hrec := Except.ok.inj hm
      refine ⟨?_, ?_, ?_, ?_, ?_⟩
      · rw [← hrec]
      · rw [← hrec]
      · intro r2 hr2
        obtain rfl : r = r2 := Option.some.inj hr2
        rw [← hrec]
      · rw [← hrec]
      · unfold toMetadata
        rw [hm0]
        rfl
  · intro buffer ss hf pad rf src d h
    obtain ⟨raw, shards, _, _, rfl⟩ := fromBuffer_ok_inv dflt buffer ss hf pad rf src d h
    rw [dagNew_sliceIndex_some]
  · intro shards hfOpt
    rfl

/-- C6 witness: the one-shard DAG over `[[0, 1]]` with the identity hash. -/
theorem c6_metadata_fields_witness :
    ("blob" : String) = jsDefaultName none
    ∧ (["0001"] : List String)
        = (dagNew (fun (x : Buf) => x) [[0, 1]] none none).leaves.map bufToHex
    ∧ (∀ r, treeRoot (dagNew (fun (x : Buf) => x) [[0, 1]] none none).merkle = some r →
        ("0001" : String) = bufToHex r)
    ∧ (2 : Nat) = (dagNew (fun (x : Buf) => x) [[0, 1]] none none).sliceIndex
    ∧ toMetadata (dagNew (fun (x : Buf) => x) [[0, 1]] none none) none
        = .ok (metadataJson "blob" ["0001"] "0001" 2) := by
  have hroot : treeRoot (dagNew (fun (x : Buf) => x) [[0, 1]] none none).merkle
      = some [0, 1] := by
    have hm : (dagNew (fun (x : Buf) => x) [[0, 1]] none none).merkle
        = mkMerkleTreeOk (fun (x : Buf) => x) [[0, 1]] := rfl
    rw [hm]
    unfold mkMerkleTreeOk treeRoot
    have hlen : ([[0, 1]] : List Buf).length = 1 := rfl
    rw [hlen, treeDepth_one]
    rfl
  have hrec : toMetadataRec (dagNew (fun (x : Buf) => x) [[0, 1]] none none) none
      = .ok ⟨"blob", ["0001"], "0001", 2⟩ := by
    unfold toMetadataRec
    rw [hroot]
    have hhex : bufToHex [0, 1] = "0001" := by decide
    simp [jsDefaultName, hhex, dagNew, sumLens]
  exact (c6_metadata_fields (fun x => x)).1
    (dagNew (fun (x : Buf) => x) [[0, 1]] none none) none ⟨"blob", ["0001"], "0001", 2⟩ hrec

/-! ## C8: the default shard size -/

/-- C8: the default `'4M'` shorthand does parse to 4194304 bytes for the
splitter, but `fromBuffer` also passes the raw `'4M'` string to
`Buffer.alloc`, which requires a number — so on any non-empty buffer the
call with the default size throws instead of building a DAG of 4 MiB
shards.  The claim describes the documented intent; the code fails. -/
theorem c8_default_size_bug :
    dagDefaultInputSize = .str "4M"
    ∧ parseSizeVal (.str "4M") = .ok 4194304
    ∧ (fromBuffer (fun (x : Buf) => x) [0] dagDefaultInputSize (fun (x : Buf) => x)
        false false (fun _ => ([] : Buf))).isOk = false
    ∧ (fromBuffer (fun (x : Buf) => x) [0] (.num ((4194304 : Nat) : ℚ))
        (fun (x : Buf) => x) false false (fun _ => ([] : Buf))).isOk = true := by
  have hp : parseSizeVal (.str "4M") = .ok 4194304 := by
    have hnan : strToNumber "4M" = none := by decide
    have hsh : parseSizeVal.parseShorthand "4M" = some (4, 1048576) := by decide
    simp only [parseSizeVal, jsToNumber, hnan, hsh]
    rw [if_pos (isSafeQ_natCast (4 * 1048576) (by norm_num [ratMaxSafe]))]
  have hsplit : splitByBytes [0] 4194304 = [[0]] := by
    rw [splitByBytes_cons [0] 4194304 (by decide) (by decide)]
    rw [List.take_of_length_le (by norm_num)]
    rw [List.drop_eq_nil_of_le (by norm_num)]
    rw [splitByBytes_nil]
  refine ⟨rfl, hp, ?_, ?_⟩
  · unfold fromBuffer
    rw [show dagDefaultInputSize = .str "4M" from rfl]
    rw [splitSync_bytes [0] (.str "4M") 4194304 hp]
    show (match ((splitByBytes [0] 4194304).mapM
        (fromBufferPad (.str "4M") (fun _ => ([] : Buf)) false)) with
      | Except.error e => (Except.error e : Except String DAGS)
      | Except.ok shards =>
          Except.ok (dagNew (fun (x : Buf) => x) shards (some ([0] : Buf).length)
            (some (fun (x : Buf) => x)))).isOk = false
    rw [hsplit]
    have hmapM : ([[0]] : List Buf).mapM (fromBufferPad (.str "4M") (fun _ => ([] : Buf)) false)
        = (Except.error "The argument size must be of type number"
            : Except String (List Buf)) := rfl
    rw [hmapM]
    rfl
  · rw [fromBuffer_num_nat (fun x => x) [0] 4194304 (by norm_num)
      (by norm_num [ratMaxSafe]) (fun x => x) false false (fun _ => [])]
    rfl

/-! ## C10: the empty buffer -/

/-- C10: with an integer size, `fromBuffer` on the empty buffer does not
raise: it returns a DAG with no shards and no leaves whose tree has a single
empty root row, so `root()` yields no digest and `toMetadata` fails when hex
encoding the root. -/
theorem c10_empty_buffer (n : Nat) (h1 : 1 ≤ n) (h2 : (n : ℚ) ≤ ratMaxSafe)
    (dflt hf : Hasher) (src : Nat → Buf) (name : Option String) :
    fromBuffer dflt [] (.num ((n : ℚ))) hf false false src
        = .ok (dagNew dflt [] (some 0) (some hf))
    ∧ (dagNew dflt [] (some 0) (some hf)).shards = []
    ∧ (dagNew dflt [] (some 0) (some hf)).leaves = []
    ∧ (dagNew dflt [] (some 0) (some hf)).merkle.rows = [[]]
    ∧ treeRoot (dagNew dflt [] (some 0) (some hf)).merkle = none
    ∧ (toMetadata (dagNew dflt [] (some 0) (some hf)) name).isOk = false := by
  have hrows : (dagNew dflt ([] : List Buf) (some 0) (some hf)).merkle.rows = [[]] := by
    have hm : (dagNew dflt ([] : List Buf) (some 0) (some hf)).merkle
        = mkMerkleTreeOk hf [] := rfl
    rw [hm]
    unfold mkMerkleTreeOk
    have hlen : (([] : List Buf)).length = 0 := rfl
    rw [hlen, treeDepth_zero]
    rfl
  have hroot : treeRoot (dagNew dflt ([] : List Buf) (some 0) (some hf)).merkle
      = none := by
    unfold treeRoot
    rw [hrows]
    rfl
  refine ⟨?_, rfl, rfl, hrows, hroot, ?_⟩
  · rw [fromBuffer_num_nat dflt [] n h1 h2 hf false false src]
    rw [splitByBytes_nil]
    rfl
  · unfold toMetadata toMetadataRec
    rw [hroot]
    rfl

/-- C10 witness: size 1 with the identity hash and an empty random source. -/
theorem c10_empty_buffer_witness :
    fromBuffer (fun (x : Buf) => x) [] (.num ((1 : Nat) : ℚ)) (fun (x : Buf) => x)
        false false (fun _ => ([] : Buf))
      = .ok (dagNew (fun (x : Buf) => x) [] (some 0) (some (fun (x : Buf) => x)))
    ∧ (dagNew (fun (x : Buf) => x) [] (some 0) (some (fun (x : Buf) => x))).shards = []
    ∧ (dagNew (fun (x : Buf) => x) [] (some 0) (some (fun (x : Buf) => x))).leaves = []
    ∧ (dagNew (fun (x : Buf) => x) [] (some 0)
        (some (fun (x : Buf) => x))).merkle.rows = [[]]
    ∧ treeRoot (dagNew (fun (x : Buf) => x) [] (some 0)
        (some (fun (x : Buf) => x))).merkle = none
    ∧ (toMetadata (dagNew (fun (x : Buf) => x) [] (some 0)
        (some (fun (x : Buf) => x))) none).isOk = false :=
  c10_empty_buffer 1 (by norm_num) (by norm_num [ratMaxSafe]) (fun x => x) (fun x => x)
    (fun _ => []) none
